import Mathlib

/-!
Verification of the pairing-based expressive accumulator
(`src/include/expressive_accumulator.h`, `src/src/expressive_accumulator.cpp`).

The development shallowly embeds the accumulator over the scalar field
`Fr = ZMod p` of BLS12-381 (`p` is the exact modulus used through mcl in the
source).  Group elements of `G1`, `G2` and `GT` are represented by their
discrete logarithms with respect to the fixed generators `g1`, `g2` and
`e(g1, g2)`: every group element the implementation constructs is a scalar
multiple of a generator, the groups have prime order `p`, and the pairing is
non-degenerate, so `g1^a = g1^b ↔ a = b` and `e(g1^a, g2^b) = e(g1, g2)^(a*b)`.
Under this faithful exponent representation, `G1`/`G2`/`GT` elements are values
of `Fr`, the identity is `0`, group multiplication is `+`, `Fp12::pow` is
scalar multiplication in the exponent, and `pairing` is multiplication.

FLINT's dense polynomials over `Fr` (`fmpz_mod_poly_t`) are embedded as
coefficient lists (lowest degree first); `fmpz_mod_poly_xgcd` is realized by
the textbook extended Euclidean algorithm it implements (monic gcd,
`a·A + b·B = g`), executable via fuel recursion.
-/

set_option maxRecDepth 40000

namespace ESAAcc

/-- Order of the BLS12-381 scalar field `Fr`, as printed by
`mcl::bls12::Fr::getModulo()` and hard-coded in `initFlintContext`. -/
def p : ℕ := 52435875175126190479447740508185965837690552500527637822603658699938581184513

/-- Fuel-driven binary modular exponentiation, used only to certify the
primality of `p` by kernel computation. -/
def powModAux : ℕ → ℕ → ℕ → ℕ → ℕ
  | 0, _, _, n => 1 % n
  | fuel + 1, a, b, n =>
    if b = 0 then 1 % n
    else
      let h := powModAux fuel (a * a % n) (b / 2) n
      if b % 2 = 1 then h * a % n else h

/-- `powMod a b n = a ^ b % n` for exponents below `2 ^ 256`. -/
def powMod (a b n : ℕ) : ℕ := powModAux 256 a b n

/-- Trial division: `n` has no divisor `j` with `k ≤ j < k + fuel`. -/
def noDivIn : ℕ → ℕ → ℕ → Bool
  | 0, _, _ => true
  | f + 1, k, n => if n % k = 0 then false else noDivIn f (k + 1) n

/-- Blocked trial division (128 candidate divisors per block, so that kernel
evaluation stays shallow): no divisor `j` with `k ≤ j < k + 128 * fuel`. -/
def noDivOut : ℕ → ℕ → ℕ → Bool
  | 0, _, _ => true
  | f + 1, k, n => if noDivIn 128 k n then noDivOut f (k + 128) n else false

theorem powModAux_eq (fuel : ℕ) : ∀ a b n : ℕ, b < 2 ^ fuel → 0 < n →
    powModAux fuel a b n = a ^ b % n := by
  induction fuel with
  | zero =>
    intro a b n hb _
    interval_cases b
    simp [powModAux]
  | succ fuel ih =>
    intro a b n hb hn
    by_cases hb0 : b = 0
    · simp [powModAux, hb0]
    · have hdiv : b / 2 < 2 ^ fuel := by
        have h2 : b < 2 * 2 ^ fuel := by
          calc b < 2 ^ (fuel + 1) := hb
          _ = 2 * 2 ^ fuel := by ring
        exact Nat.div_lt_of_lt_mul h2
      have hrec : powModAux fuel (a * a % n) (b / 2) n = (a * a) ^ (b / 2) % n := by
        rw [ih (a * a % n) (b / 2) n hdiv hn, ← Nat.pow_mod]
      rcases Nat.mod_two_eq_zero_or_one b with h2 | h2
      · have hbeq : b = 2 * (b / 2) := by omega
        have hstep : powModAux (fuel + 1) a b n = powModAux fuel (a * a % n) (b / 2) n := by
          simp [powModAux, hb0, h2]
        rw [hstep, hrec, ← pow_two, ← pow_mul, ← hbeq]
      · have hbeq : b = 2 * (b / 2) + 1 := by omega
        have hstep : powModAux (fuel + 1) a b n =
            powModAux fuel (a * a % n) (b / 2) n * a % n := by
          simp [powModAux, hb0, h2]
        rw [hstep, hrec, Nat.mod_mul_mod, ← pow_two, ← pow_mul, ← pow_succ, ← hbeq]

theorem powModAux_lt (fuel : ℕ) : ∀ a b n : ℕ, 0 < n → powModAux fuel a b n < n := by
  induction fuel with
  | zero => intro a b n hn; simpa [powModAux] using Nat.mod_lt _ hn
  | succ fuel ih =>
    intro a b n hn
    simp only [powModAux]
    by_cases hb0 : b = 0
    · simpa [hb0] using Nat.mod_lt 1 hn
    · simp only [if_neg hb0]
      by_cases h2 : b % 2 = 1
      · simpa [h2] using Nat.mod_lt _ hn
      · simpa [h2] using ih (a * a % n) (b / 2) n hn

theorem powMod_eq (a b n : ℕ) (hb : b < 2 ^ 256) (hn : 0 < n) :
    powMod a b n = a ^ b % n := powModAux_eq 256 a b n hb hn

theorem powMod_lt (a b n : ℕ) (hn : 0 < n) : powMod a b n < n :=
  powModAux_lt 256 a b n hn

theorem p_pos : 0 < p := by decide

theorem p_sub_one_lt : p - 1 < 2 ^ 256 := by decide

theorem cast_powMod (e : ℕ) (he : e < 2 ^ 256) :
    ((powMod 7 e p : ℕ) : ZMod p) = (7 : ZMod p) ^ e := by
  rw [powMod_eq 7 e p he p_pos, ZMod.natCast_mod, Nat.cast_pow]
  norm_num

theorem seven_pow_eq_one_of (e : ℕ) (he : e < 2 ^ 256)
    (h : (7 : ZMod p) ^ e = 1) : powMod 7 e p = 1 := by
  rw [← cast_powMod e he] at h
  have hlt : powMod 7 e p < p := powMod_lt 7 e p p_pos
  haveI : Fact (1 < p) := ⟨by decide⟩
  have hval := congrArg ZMod.val h
  rw [ZMod.val_cast_of_lt hlt, ZMod.val_one] at hval
  exact hval

theorem noDivIn_spec (fuel : ℕ) : ∀ k n : ℕ, 1 ≤ k → noDivIn fuel k n = true →
    ∀ j, k ≤ j → j < k + fuel → ¬ j ∣ n := by
  induction fuel with
  | zero => intro k n _ _ j h1 h2; omega
  | succ fuel ih =>
    intro k n hk h j h1 h2
    simp only [noDivIn] at h
    by_cases hmod : n % k = 0
    · simp [hmod] at h
    · rw [if_neg hmod] at h
      rcases Nat.eq_or_lt_of_le h1 with heq | hlt
      · subst heq
        intro hdvd
        exact hmod (Nat.dvd_iff_mod_eq_zero.mp hdvd)
      · exact ih (k + 1) n (by omega) h j (by omega) (by omega)

theorem noDivOut_spec (fuel : ℕ) : ∀ k n : ℕ, 1 ≤ k → noDivOut fuel k n = true →
    ∀ j, k ≤ j → j < k + 128 * fuel → ¬ j ∣ n := by
  induction fuel with
  | zero => intro k n _ _ j h1 h2; omega
  | succ fuel ih =>
    intro k n hk h j h1 h2
    simp only [noDivOut] at h
    by_cases hin : noDivIn 128 k n = true
    · rw [if_pos hin] at h
      by_cases hj : j < k + 128
      · exact noDivIn_spec 128 k n hk hin j h1 hj
      · exact ih (k + 128) n (by omega) h j (by omega) (by omega)
    · simp [hin] at h

/-- Primality by trial division up to a bound `B` with `B² > n`, with the
division checks evaluated by the kernel. -/
theorem prime_of_noDiv (n B f : ℕ) (h2 : 2 ≤ n) (hB : n < B * B)
    (hf : B ≤ 2 + 128 * f) (hdiv : noDivOut f 2 n = true) : Nat.Prime n := by
  rw [Nat.prime_def_le_sqrt]
  refine ⟨h2, fun m hm hms => ?_⟩
  have hsq : Nat.sqrt n < B := Nat.sqrt_lt.mpr hB
  exact noDivOut_spec f 2 n (by omega) hdiv m hm (by omega)

theorem prime_10177 : Nat.Prime 10177 :=
  prime_of_noDiv 10177 101 1 (by decide) (by decide) (by decide) (by decide)

theorem prime_125527 : Nat.Prime 125527 :=
  prime_of_noDiv 125527 355 3 (by decide) (by decide) (by decide) (by decide)

theorem prime_859267 : Nat.Prime 859267 :=
  prime_of_noDiv 859267 928 8 (by decide) (by decide) (by decide) (by decide)

theorem prime_906349 : Nat.Prime 906349 :=
  prime_of_noDiv 906349 953 8 (by decide) (by decide) (by decide) (by decide)

theorem prime_2508409 : Nat.Prime 2508409 :=
  prime_of_noDiv 2508409 1584 13 (by decide) (by decide) (by decide) (by decide)

theorem prime_2529403 : Nat.Prime 2529403 :=
  prime_of_noDiv 2529403 1591 13 (by decide) (by decide) (by decide) (by decide)

theorem prime_52437899 : Nat.Prime 52437899 :=
  prime_of_noDiv 52437899 7242 57 (by decide) (by decide) (by decide) (by decide)

theorem prime_254760293 : Nat.Prime 254760293 :=
  prime_of_noDiv 254760293 15962 125 (by decide) (by decide) (by decide) (by decide)

theorem p_sub_one_factored : p - 1 =
    2 ^ 32 * (3 * (11 * (19 * (10177 * (125527 * (859267 * (906349 ^ 2 *
      (2508409 * (2529403 * (52437899 * 254760293 ^ 2)))))))))) := by decide

theorem p_prime : Nat.Prime p := by
  apply lucas_primality p 7
  · have h1 : powMod 7 (p - 1) p = 1 := by decide
    have := cast_powMod (p - 1) p_sub_one_lt
    rw [h1] at this
    simpa using this.symm
  · intro q hq hdvd
    have hql : q = 2 ∨ q = 3 ∨ q = 11 ∨ q = 19 ∨ q = 10177 ∨ q = 125527 ∨
        q = 859267 ∨ q = 906349 ∨ q = 2508409 ∨ q = 2529403 ∨
        q = 52437899 ∨ q = 254760293 := by
      rw [p_sub_one_factored] at hdvd
      have e2 : q ∣ 2 ^ 32 → q = 2 := fun h =>
        (Nat.prime_dvd_prime_iff_eq hq Nat.prime_two).mp (hq.dvd_of_dvd_pow h)
      have e3 : q ∣ 3 → q = 3 := fun h =>
        (Nat.prime_dvd_prime_iff_eq hq (by norm_num)).mp h
      have e11 : q ∣ 11 → q = 11 := fun h =>
        (Nat.prime_dvd_prime_iff_eq hq (by norm_num)).mp h
      have e19 : q ∣ 19 → q = 19 := fun h =>
        (Nat.prime_dvd_prime_iff_eq hq (by norm_num)).mp h
      have e10177 : q ∣ 10177 → q = 10177 := fun h =>
        (Nat.prime_dvd_prime_iff_eq hq prime_10177).mp h
      have e125527 : q ∣ 125527 → q = 125527 := fun h =>
        (Nat.prime_dvd_prime_iff_eq hq prime_125527).mp h
      have e859267 : q ∣ 859267 → q = 859267 := fun h =>
        (Nat.prime_dvd_prime_iff_eq hq prime_859267).mp h
      have e906349 : q ∣ 906349 ^ 2 → q = 906349 := fun h =>
        (Nat.prime_dvd_prime_iff_eq hq prime_906349).mp (hq.dvd_of_dvd_pow h)
      have e2508409 : q ∣ 2508409 → q = 2508409 := fun h =>
        (Nat.prime_dvd_prime_iff_eq hq prime_2508409).mp h
      have e2529403 : q ∣ 2529403 → q = 2529403 := fun h =>
        (Nat.prime_dvd_prime_iff_eq hq prime_2529403).mp h
      have e52437899 : q ∣ 52437899 → q = 52437899 := fun h =>
        (Nat.prime_dvd_prime_iff_eq hq prime_52437899).mp h
      have e254760293 : q ∣ 254760293 ^ 2 → q = 254760293 := fun h =>
        (Nat.prime_dvd_prime_iff_eq hq prime_254760293).mp (hq.dvd_of_dvd_pow h)
      rcases hq.dvd_mul.mp hdvd with h | h
      · exact Or.inl (e2 h)
      rcases hq.dvd_mul.mp h with h | h
      · exact Or.inr (Or.inl (e3 h))
      rcases hq.dvd_mul.mp h with h | h
      · exact Or.inr (Or.inr (Or.inl (e11 h)))
      rcases hq.dvd_mul.mp h with h | h
      · exact Or.inr (Or.inr (Or.inr (Or.inl (e19 h))))
      rcases hq.dvd_mul.mp h with h | h
      · exact Or.inr (Or.inr (Or.inr (Or.inr (Or.inl (e10177 h)))))
      rcases hq.dvd_mul.mp h with h | h
      · exact Or.inr (Or.inr (Or.inr (Or.inr (Or.inr (Or.inl (e125527 h))))))
      rcases hq.dvd_mul.mp h with h | h
      · exact Or.inr (Or.inr (Or.inr (Or.inr (Or.inr (Or.inr (Or.inl (e859267 h)))))))
      rcases hq.dvd_mul.mp h with h | h
      · exact Or.inr (Or.inr (Or.inr (Or.inr (Or.inr (Or.inr (Or.inr (Or.inl (e906349 h))))))))
      rcases hq.dvd_mul.mp h with h | h
      · exact Or.inr (Or.inr (Or.inr (Or.inr (Or.inr (Or.inr (Or.inr (Or.inr (Or.inl (e2508409 h)))))))))
      rcases hq.dvd_mul.mp h with h | h
      · exact Or.inr (Or.inr (Or.inr (Or.inr (Or.inr (Or.inr (Or.inr (Or.inr (Or.inr (Or.inl (e2529403 h))))))))))
      rcases hq.dvd_mul.mp h with h | h
      · exact Or.inr (Or.inr (Or.inr (Or.inr (Or.inr (Or.inr (Or.inr (Or.inr (Or.inr (Or.inr (Or.inl (e52437899 h)))))))))))
      · exact Or.inr (Or.inr (Or.inr (Or.inr (Or.inr (Or.inr (Or.inr (Or.inr (Or.inr (Or.inr (Or.inr (e254760293 h)))))))))))
    intro hone
    have hlt : (p - 1) / q < 2 ^ 256 := by
      exact lt_of_le_of_lt (Nat.div_le_self _ _) p_sub_one_lt
    have := seven_pow_eq_one_of ((p - 1) / q) hlt hone
    rcases hql with h | h | h | h | h | h | h | h | h | h | h | h <;>
      subst h <;> revert this <;> decide

instance fact_p_prime : Fact (Nat.Prime p) := ⟨p_prime⟩

/-- The scalar field of BLS12-381 (`mcl::bls12::Fr`). -/
abbrev Fr : Type := ZMod p

/-!
### Dense polynomials over `Fr`

FLINT's `fmpz_mod_poly_t` values appearing in `generateIntersectionProof` are
embedded as coefficient lists, lowest degree first.  FLINT keeps a normalized
length (no leading zero coefficients); `trimP` performs that normalization.
-/

/-- Remove high-order zero coefficients (FLINT's `_fmpz_mod_poly_normalise`). -/
def trimP : List Fr → List Fr
  | [] => []
  | c :: rest =>
    if trimP rest = [] then (if c = 0 then [] else [c]) else c :: trimP rest

/-- A list is in normalized form. -/
def Trimmed (l : List Fr) : Prop := trimP l = l

/-- Coefficientwise polynomial addition. -/
def polyAdd : List Fr → List Fr → List Fr
  | [], q => q
  | p, [] => p
  | a :: pr, b :: q => (a + b) :: polyAdd pr q

/-- Coefficientwise negation. -/
def polyNeg (l : List Fr) : List Fr := l.map (fun c => -c)

/-- Polynomial subtraction. -/
def polySub (l m : List Fr) : List Fr := polyAdd l (polyNeg m)

/-- Multiplication by the scalar `c`. -/
def polyScale (c : Fr) (l : List Fr) : List Fr := l.map (fun a => c * a)

/-- Schoolbook polynomial multiplication (`fmpz_mod_poly_mul`). -/
def polyMul : List Fr → List Fr → List Fr
  | [], _ => []
  | a :: pr, q => polyAdd (polyScale a q) (0 :: polyMul pr q)

/-- Horner evaluation (`fmpz_mod_poly_evaluate_fmpz`). -/
def evalPoly (l : List Fr) (x : Fr) : Fr := l.foldr (fun c acc => c + x * acc) 0

/-- `PolynomialUtils::fromRoots`: starts from the constant `1` and multiplies
by `z - root` for each root, iterating the `std::set<int>` in ascending
order. -/
def fromRoots (roots : Finset ℤ) : List Fr :=
  (roots.sort (· ≤ ·)).foldl (fun acc (r : ℤ) => polyMul acc [-(r : Fr), 1]) [1]

/-- Leading coefficient of a normalized list (`0` for the zero polynomial). -/
def leadC (l : List Fr) : Fr := l.getD (l.length - 1) 0

/-- One division step loop of polynomial division with remainder; `fuel`
bounds the recursion depth (the degree strictly decreases each step). -/
def polyDivModAux : ℕ → List Fr → List Fr → List Fr × List Fr
  | 0, pp, _ => ([], pp)
  | fuel + 1, pp, q =>
    if pp.length < q.length then ([], pp)
    else
      let c := leadC pp * (leadC q)⁻¹
      let k := pp.length - q.length
      let r := trimP (polySub pp (List.replicate k 0 ++ polyScale c q))
      let res := polyDivModAux fuel r q
      (polyAdd res.1 (List.replicate k 0 ++ [c]), res.2)

/-- Division with remainder of normalized `pp` by normalized nonzero `q`. -/
def polyDivMod (pp q : List Fr) : List Fr × List Fr := polyDivModAux pp.length pp q

/-- Extended Euclidean loop on normalized lists: returns `(g, a, b)` with
`a·pp + b·q = g` and `g` a greatest common divisor (not yet monic). -/
def xgcdAux : ℕ → List Fr → List Fr → List Fr × List Fr × List Fr
  | 0, pp, _ => (pp, [1], [])
  | fuel + 1, pp, q =>
    if q = [] then (pp, [1], [])
    else
      let dm := polyDivMod pp q
      let res := xgcdAux fuel q dm.2
      (res.1, res.2.2, polySub res.2.1 (polyMul res.2.2 dm.1))

/-- Model of `fmpz_mod_poly_xgcd`: `(g, a, b)` with `a·A + b·B = g` and `g`
the monic gcd of `A` and `B` (`g = 0` if both inputs are zero). -/
def fmpzModPolyXgcd (A B : List Fr) : List Fr × List Fr × List Fr :=
  let pp := trimP A
  let q := trimP B
  let res := xgcdAux (q.length + 1) pp q
  let g := trimP res.1
  let c := leadC g
  if c = 0 then ([], [], [])
  else (polyScale c⁻¹ g, polyScale c⁻¹ (trimP res.2.1), polyScale c⁻¹ (trimP res.2.2))

/-- Model of `fmpz_mod_poly_is_one`. -/
def fmpzModPolyIsOne (l : List Fr) : Bool := decide (trimP l = [1])

/-- Interpretation of a coefficient list as a `Polynomial Fr` (used only in
proofs, to connect the executable lists with Mathlib's polynomial algebra). -/
noncomputable def toPoly : List Fr → Polynomial Fr
  | [] => 0
  | c :: rest => Polynomial.C c + Polynomial.X * toPoly rest

/-!
### Groups in the exponent representation

Every `G1`/`G2`/`GT` value the implementation manipulates is a scalar multiple
of the fixed generator of its prime-order group, so it is represented by its
discrete logarithm in `Fr`: the identity (`clear()`) is `0`, the generator is
`1`, `G::mul(out, gen, k)` produces `k`, group multiplication is `+`,
`Fp12::pow` multiplies the exponent, and the pairing is non-degenerate, so
`e(g1^a, g2^b) = e(g1,g2)^(a·b)` is exponent multiplication and equality of
group elements is equality of exponents. -/

/-- Pairing `e : G1 × G2 → GT` in the exponent representation. -/
def pairing (a b : Fr) : Fr := a * b

/-- `AccumulatorDigest` (a `G1` point, as exponent of `g1`). -/
structure AccumulatorDigest where
  value : Fr
deriving DecidableEq

/-- `AccumulatorDigestG2` (a `G2` point, as exponent of `g2`). -/
structure AccumulatorDigestG2 where
  value : Fr
deriving DecidableEq

/-- `MembershipProof`; the non-member case carries a default-constructed
witness, modeled as `0`. -/
structure MembershipProof where
  witness_g2 : Fr
  is_member : Bool
deriving DecidableEq

/-- `UpdateOperation`. -/
inductive UpdateOperation
  | ADD
  | DELETE
deriving DecidableEq

/-- `UpdateProof`. -/
structure UpdateProof where
  op_type : UpdateOperation
  old_digest : AccumulatorDigest
  new_digest : AccumulatorDigest
  element : ℤ
  membership_proof : MembershipProof
  is_valid : Bool
deriving DecidableEq

/-- `IntersectionProof`. -/
structure IntersectionProof where
  intersection_digest_g1 : AccumulatorDigest
  witness_QA_g2 : Fr
  witness_QB_g2 : Fr
  witness_a_g1 : Fr
  witness_b_g1 : Fr
  is_valid : Bool
deriving DecidableEq

/-- `ExpressiveTrustedSetup`.  The constructor stores the secrets; the power
vectors are filled by `generatePowers`.  Elements of the power vectors are
exponents: `g^(s^i)` is represented by `s^i`. -/
structure ExpressiveTrustedSetup where
  secret_s : Fr
  secret_r : Fr
  max_degree : ℕ
  g1_s_powers : List Fr
  g2_s_powers : List Fr
deriving DecidableEq

/-- `ExpressiveTrustedSetup::ExpressiveTrustedSetup(s, r, max_deg)`. -/
def mkSetup (s r : Fr) (max_deg : ℕ) : ExpressiveTrustedSetup :=
  { secret_s := s, secret_r := r, max_degree := max_deg,
    g1_s_powers := [], g2_s_powers := [] }

/-- `ExpressiveTrustedSetup::generatePowers`: for `i = 0 .. max_degree + 1`,
store `g1^(s^i)` and `g2^(s^i)` (exponent `s^i`). -/
def ExpressiveTrustedSetup.generatePowers (ts : ExpressiveTrustedSetup) :
    ExpressiveTrustedSetup :=
  { ts with
    g1_s_powers := (List.range (ts.max_degree + 2)).map (fun i => ts.secret_s ^ i),
    g2_s_powers := (List.range (ts.max_degree + 2)).map (fun i => ts.secret_s ^ i) }

/-- `getG2_s_pow(i)` uses bounds-checked `std::vector::at`, which throws on an
out-of-range index: embedded as an `Option`, `none` meaning the fatal throw. -/
def ExpressiveTrustedSetup.getG2_s_pow (ts : ExpressiveTrustedSetup) (i : ℕ) :
    Option Fr := ts.g2_s_powers.get? i

/-- `CharacteristicPolynomial`: owns its own copy of the root set. -/
structure CharacteristicPolynomial where
  elements : Finset ℤ
deriving DecidableEq

/-- `CharacteristicPolynomial::addElement`. -/
def CharacteristicPolynomial.addElement (cp : CharacteristicPolynomial) (x : ℤ) :
    CharacteristicPolynomial := ⟨insert x cp.elements⟩

/-- `CharacteristicPolynomial::removeElement`. -/
def CharacteristicPolynomial.removeElement (cp : CharacteristicPolynomial) (x : ℤ) :
    CharacteristicPolynomial := ⟨cp.elements.erase x⟩

/-- `CharacteristicPolynomial::evaluate`: `P(a) = ∏_{x ∈ elements} (a - x)`,
with the empty set yielding `1`. -/
def CharacteristicPolynomial.evaluate (cp : CharacteristicPolynomial) (a : Fr) : Fr :=
  if cp.elements = ∅ then 1 else ∏ x ∈ cp.elements, (a - (x : Fr))

/-- `CharacteristicPolynomial::intersection` (`std::set_intersection`). -/
def CharacteristicPolynomial.inter (set1 set2 : Finset ℤ) : Finset ℤ := set1 ∩ set2

/-- The characteristic polynomial of `S` evaluated at `a` (the mathematical
view used in the specification: `P_S(a) = ∏_{x ∈ S} (a - x)`, `P_∅ = 1`). -/
def charEval (S : Finset ℤ) (a : Fr) : Fr := ∏ x ∈ S, (a - (x : Fr))

/-- `GroupType`. -/
inductive GroupType
  | G1_TYPE
  | G2_TYPE
deriving DecidableEq

/-- `ExpressiveAccumulator` state.  `digest_g1`/`digest_g2` are the two public
digest fields; the constructor default-initializes both to the identity
(exponent `0`) and then sets the one for the chosen group to the generator
(exponent `1`). -/
structure ExpressiveAccumulator where
  trusted_setup : ExpressiveTrustedSetup
  elements : Finset ℤ
  polynomial : CharacteristicPolynomial
  group_type : GroupType
  digest_g1 : AccumulatorDigest
  digest_g2 : AccumulatorDigestG2
deriving DecidableEq

/-- `ExpressiveAccumulator::ExpressiveAccumulator(setup, type)`. -/
def mkAccumulator (setup : ExpressiveTrustedSetup) (t : GroupType) :
    ExpressiveAccumulator :=
  { trusted_setup := setup, elements := ∅, polynomial := ⟨∅⟩, group_type := t,
    digest_g1 := match t with
      | .G1_TYPE => ⟨1⟩
      | .G2_TYPE => ⟨0⟩,
    digest_g2 := match t with
      | .G1_TYPE => ⟨0⟩
      | .G2_TYPE => ⟨1⟩ }

/-- `ExpressiveAccumulator::getDigest` (always the `G1` digest field). -/
def ExpressiveAccumulator.getDigest (acc : ExpressiveAccumulator) :
    AccumulatorDigest := acc.digest_g1

/-- `ExpressiveAccumulator::updateAccumulatorValue`: re-evaluate `P(s)` and set
the digest of the chosen group to `g^P(s)`. -/
def ExpressiveAccumulator.updateAccumulatorValue (acc : ExpressiveAccumulator) :
    ExpressiveAccumulator :=
  let poly_eval := acc.polynomial.evaluate acc.trusted_setup.secret_s
  match acc.group_type with
  | .G1_TYPE => { acc with digest_g1 := ⟨poly_eval⟩ }
  | .G2_TYPE => { acc with digest_g2 := ⟨poly_eval⟩ }

/-- `ExpressiveAccumulator::addElement`: returns the mutated accumulator
together with the `UpdateProof` the method returns. -/
def ExpressiveAccumulator.addElement (acc : ExpressiveAccumulator) (element : ℤ) :
    ExpressiveAccumulator × UpdateProof :=
  let old := acc.getDigest
  let acc' :=
    if element ∈ acc.elements then acc
    else
      ExpressiveAccumulator.updateAccumulatorValue
        { acc with elements := insert element acc.elements,
                   polynomial := acc.polynomial.addElement element }
  (acc', { op_type := .ADD, element := element, old_digest := old,
           new_digest := acc'.getDigest, membership_proof := ⟨0, false⟩,
           is_valid := true })

/-- `ExpressiveAccumulator::generateMembershipProof`. -/
def ExpressiveAccumulator.generateMembershipProof (acc : ExpressiveAccumulator)
    (element : ℤ) : MembershipProof :=
  if element ∉ acc.elements then { witness_g2 := 0, is_member := false }
  else
    let witness_elements := acc.elements.erase element
    let witness_poly : CharacteristicPolynomial := ⟨witness_elements⟩
    { witness_g2 := witness_poly.evaluate acc.trusted_setup.secret_s,
      is_member := true }

/-- `ExpressiveAccumulator::deleteElement`. -/
def ExpressiveAccumulator.deleteElement (acc : ExpressiveAccumulator) (element : ℤ) :
    ExpressiveAccumulator × UpdateProof :=
  let old := acc.getDigest
  if element ∉ acc.elements then
    (acc, { op_type := .DELETE, element := element, old_digest := old,
            new_digest := acc.getDigest, membership_proof := ⟨0, false⟩,
            is_valid := false })
  else
    let mp := acc.generateMembershipProof element
    if ¬ mp.is_member then
      (acc, { op_type := .DELETE, element := element, old_digest := old,
              new_digest := acc.getDigest, membership_proof := mp,
              is_valid := false })
    else
      let acc' :=
        ExpressiveAccumulator.updateAccumulatorValue
          { acc with polynomial := acc.polynomial.removeElement element,
                     elements := acc.elements.erase element }
      (acc', { op_type := .DELETE, element := element, old_digest := old,
               new_digest := acc'.getDigest, membership_proof := mp,
               is_valid := true })

/-- `ExpressiveAccumulator::verifyMembershipProof`:
checks `e(digest, g2) == e(g1^(s-x), W)`. -/
def ExpressiveAccumulator.verifyMembershipProof (acc_digest : AccumulatorDigest)
    (element : ℤ) (proof : MembershipProof) (setup : ExpressiveTrustedSetup) : Bool :=
  if ¬ proof.is_member then false
  else
    let lhs := pairing acc_digest.value 1
    let rhs := pairing (setup.secret_s - (element : Fr)) proof.witness_g2
    decide (lhs = rhs)

/-- `ExpressiveAccumulator::generateIntersectionProof`. -/
def ExpressiveAccumulator.generateIntersectionProof (acc1 acc2 : ExpressiveAccumulator)
    (setup : ExpressiveTrustedSetup) : IntersectionProof :=
  let secret_s := setup.secret_s
  let intersection_set := CharacteristicPolynomial.inter acc1.elements acc2.elements
  let diff_A_set := acc1.elements \ intersection_set
  let diff_B_set := acc2.elements \ intersection_set
  let poly_I := fromRoots intersection_set
  let poly_QA := fromRoots diff_A_set
  let poly_QB := fromRoots diff_B_set
  let I_s := evalPoly poly_I secret_s
  let QA_s := evalPoly poly_QA secret_s
  let QB_s := evalPoly poly_QB secret_s
  let res := fmpzModPolyXgcd poly_QA poly_QB
  if ¬ fmpzModPolyIsOne res.1 then
    { intersection_digest_g1 := ⟨I_s⟩, witness_QA_g2 := QA_s,
      witness_QB_g2 := QB_s, witness_a_g1 := 0, witness_b_g1 := 0,
      is_valid := false }
  else
    { intersection_digest_g1 := ⟨I_s⟩, witness_QA_g2 := QA_s,
      witness_QB_g2 := QB_s, witness_a_g1 := evalPoly res.2.1 secret_s,
      witness_b_g1 := evalPoly res.2.2 secret_s, is_valid := true }

/-- `ExpressiveAccumulator::verifyIntersectionProof`: the three pairing checks,
preceded by the `is_valid` flag check. -/
def ExpressiveAccumulator.verifyIntersectionProof (digest_A digest_B : AccumulatorDigest)
    (proof : IntersectionProof) (setup : ExpressiveTrustedSetup) : Bool :=
  if ¬ proof.is_valid then false
  else if ¬ decide (pairing digest_A.value 1 =
      pairing proof.intersection_digest_g1.value proof.witness_QA_g2) then false
  else if ¬ decide (pairing digest_B.value 1 =
      pairing proof.intersection_digest_g1.value proof.witness_QB_g2) then false
  else if ¬ decide (pairing proof.witness_a_g1 proof.witness_QA_g2 +
      pairing proof.witness_b_g1 proof.witness_QB_g2 = pairing 1 1) then false
  else true

/-- `ExpressiveAccumulator::verifyUpdateProof`.  `g2_s` is
`setup.g2_s_powers[1]` (unchecked `operator[]`, embedded by `getD`). -/
def ExpressiveAccumulator.verifyUpdateProof (proof : UpdateProof)
    (setup : ExpressiveTrustedSetup) : Bool :=
  if ¬ proof.is_valid then false
  else
    let element_fr : Fr := (proof.element : Fr)
    let g2_s := setup.g2_s_powers.getD 1 0
    match proof.op_type with
    | .ADD =>
      let lhs := pairing proof.new_digest.value 1
      let rhs1 := pairing proof.old_digest.value g2_s
      let rhs2 := pairing proof.old_digest.value 1 * (-element_fr)
      decide (lhs = rhs1 + rhs2)
    | .DELETE =>
      if ¬ ExpressiveAccumulator.verifyMembershipProof proof.old_digest
          proof.element proof.membership_proof setup then false
      else
        let lhs := pairing proof.old_digest.value 1
        let rhs1 := pairing proof.new_digest.value g2_s
        let rhs2 := pairing proof.new_digest.value 1 * (-element_fr)
        decide (lhs = rhs1 + rhs2)

/-- Accumulator states reachable from the constructor through any sequence of
`addElement` and `deleteElement` calls. -/
inductive Reachable : ExpressiveAccumulator → Prop
  | mk (setup : ExpressiveTrustedSetup) (t : GroupType) :
      Reachable (mkAccumulator setup t)
  | add (acc : ExpressiveAccumulator) (x : ℤ) (h : Reachable acc) :
      Reachable (acc.addElement x).1
  | del (acc : ExpressiveAccumulator) (x : ℤ) (h : Reachable acc) :
      Reachable (acc.deleteElement x).1

/-- Accumulator states reachable using `addElement` only. -/
inductive ReachableAdd : ExpressiveAccumulator → Prop
  | mk (setup : ExpressiveTrustedSetup) (t : GroupType) :
      ReachableAdd (mkAccumulator setup t)
  | add (acc : ExpressiveAccumulator) (x : ℤ) (h : ReachableAdd acc) :
      ReachableAdd (acc.addElement x).1

/-- A concrete generated setup used to exercise the theorems below
(`s = 5`, `r = 7`, degree bound `10`). -/
def tsW : ExpressiveTrustedSetup := (mkSetup 5 7 10).generatePowers

/-- Concrete `G1` accumulator holding `{1, 3, 9}`, built by three adds. -/
def accW1 : ExpressiveAccumulator :=
  ((((mkAccumulator tsW GroupType.G1_TYPE).addElement 1).1.addElement 3).1.addElement 9).1

/-- Concrete `G1` accumulator holding `{2, 3}`, built by two adds. -/
def accW2 : ExpressiveAccumulator :=
  (((mkAccumulator tsW GroupType.G1_TYPE).addElement 2).1.addElement 3).1

/-- Concrete `G2` accumulator holding `{4}`. -/
def accW3 : ExpressiveAccumulator :=
  ((mkAccumulator tsW GroupType.G2_TYPE).addElement 4).1

/-- An intersection proof whose pairing sides all hold but whose `is_valid`
flag is `false` (for digests `g1^1`, `g1^1`). -/
def proofW2 : IntersectionProof :=
  { intersection_digest_g1 := ⟨1⟩, witness_QA_g2 := 1, witness_QB_g2 := 1,
    witness_a_g1 := 1, witness_b_g1 := 0, is_valid := false }

/-- The same intersection proof with the `is_valid` flag set. -/
def proofW2v : IntersectionProof :=
  { intersection_digest_g1 := ⟨1⟩, witness_QA_g2 := 1, witness_QB_g2 := 1,
    witness_a_g1 := 1, witness_b_g1 := 0, is_valid := true }

/-!
### Semantics of coefficient lists
-/

theorem toPoly_nil : toPoly [] = 0 := rfl

theorem toPoly_cons (c : Fr) (l : List Fr) :
    toPoly (c :: l) = Polynomial.C c + Polynomial.X * toPoly l := rfl

theorem polyAdd_getD (l m : List Fr) (n : ℕ) :
    (polyAdd l m).getD n 0 = l.getD n 0 + m.getD n 0 := by
  induction l generalizing m n with
  | nil => simp [polyAdd]
  | cons a l ih =>
    cases m with
    | nil => simp [polyAdd]
    | cons b m =>
      cases n with
      | zero => simp [polyAdd]
      | succ n => simpa [polyAdd] using ih m n

theorem polyNeg_getD (l : List Fr) (n : ℕ) : (polyNeg l).getD n 0 = -(l.getD n 0) := by
  induction l generalizing n with
  | nil => simp [polyNeg]
  | cons a l ih =>
    cases n with
    | zero => simp [polyNeg]
    | succ n => simpa [polyNeg] using ih n

theorem polySub_getD (l m : List Fr) (n : ℕ) :
    (polySub l m).getD n 0 = l.getD n 0 - m.getD n 0 := by
  unfold polySub
  rw [polyAdd_getD, polyNeg_getD, sub_eq_add_neg]

theorem polyScale_getD (c : Fr) (l : List Fr) (n : ℕ) :
    (polyScale c l).getD n 0 = c * l.getD n 0 := by
  induction l generalizing n with
  | nil => simp [polyScale]
  | cons a l ih =>
    cases n with
    | zero => simp [polyScale]
    | succ n => simpa [polyScale] using ih n

theorem replicate_append_getD (k : ℕ) (l : List Fr) (n : ℕ) :
    (List.replicate k (0 : Fr) ++ l).getD n 0 =
      if n < k then 0 else l.getD (n - k) 0 := by
  induction k generalizing n with
  | zero => simp
  | succ k ih =>
    cases n with
    | zero => simp [List.replicate_succ]
    | succ n =>
      simp only [List.replicate_succ, List.cons_append, List.getD_cons_succ, ih n,
        Nat.succ_lt_succ_iff, Nat.succ_sub_succ]

theorem toPoly_coeff (l : List Fr) (n : ℕ) : (toPoly l).coeff n = l.getD n 0 := by
  induction l generalizing n with
  | nil => simp [toPoly_nil]
  | cons c l ih =>
    cases n with
    | zero => simp [toPoly_cons, Polynomial.coeff_X_mul_zero]
    | succ n => simp [toPoly_cons, Polynomial.coeff_X_mul, ih]

theorem toPoly_polyAdd (l m : List Fr) : toPoly (polyAdd l m) = toPoly l + toPoly m := by
  ext n
  rw [Polynomial.coeff_add, toPoly_coeff, toPoly_coeff, toPoly_coeff, polyAdd_getD]

theorem toPoly_polyNeg (l : List Fr) : toPoly (polyNeg l) = -toPoly l := by
  ext n
  rw [Polynomial.coeff_neg, toPoly_coeff, toPoly_coeff, polyNeg_getD]

theorem toPoly_polySub (l m : List Fr) : toPoly (polySub l m) = toPoly l - toPoly m := by
  ext n
  rw [Polynomial.coeff_sub, toPoly_coeff, toPoly_coeff, toPoly_coeff, polySub_getD]

theorem toPoly_polyScale (c : Fr) (l : List Fr) :
    toPoly (polyScale c l) = Polynomial.C c * toPoly l := by
  ext n
  rw [Polynomial.coeff_C_mul, toPoly_coeff, toPoly_coeff, polyScale_getD]

theorem toPoly_replicate_append (k : ℕ) (l : List Fr) :
    toPoly (List.replicate k (0 : Fr) ++ l) = Polynomial.X ^ k * toPoly l := by
  induction k with
  | zero => simp
  | succ k ih =>
    simp only [List.replicate_succ, List.cons_append, toPoly_cons, ih, map_zero]
    ring

theorem toPoly_polyMul (l m : List Fr) : toPoly (polyMul l m) = toPoly l * toPoly m := by
  induction l with
  | nil => simp [polyMul, toPoly_nil]
  | cons a l ih =>
    simp only [polyMul, toPoly_polyAdd, toPoly_polyScale, toPoly_cons, ih, map_zero]
    ring

theorem toPoly_trimP (l : List Fr) : toPoly (trimP l) = toPoly l := by
  induction l with
  | nil => rfl
  | cons c rest ih =>
    simp only [trimP]
    by_cases h : trimP rest = []
    · have hr : toPoly rest = 0 := by rw [← ih, h, toPoly_nil]
      by_cases hc : c = 0
      · simp [h, hc, toPoly_cons, toPoly_nil, hr]
      · simp [h, hc, toPoly_cons, toPoly_nil, hr]
    · simp [h, toPoly_cons, ih]

theorem evalPoly_toPoly (l : List Fr) (x : Fr) : evalPoly l x = (toPoly l).eval x := by
  induction l with
  | nil => simp [evalPoly, toPoly_nil]
  | cons c rest ih =>
    show c + x * evalPoly rest x = (toPoly (c :: rest)).eval x
    rw [toPoly_cons, Polynomial.eval_add, Polynomial.eval_C, Polynomial.eval_mul,
      Polynomial.eval_X, ih]

theorem polyAdd_length (l m : List Fr) : (polyAdd l m).length = max l.length m.length := by
  induction l generalizing m with
  | nil => simp [polyAdd]
  | cons a l ih =>
    cases m with
    | nil => simp [polyAdd]
    | cons b m =>
      simp only [polyAdd, List.length_cons, ih]
      omega

theorem polySub_length (l m : List Fr) : (polySub l m).length = max l.length m.length := by
  simp [polySub, polyAdd_length, polyNeg]

theorem trimP_length_le (l : List Fr) : (trimP l).length ≤ l.length := by
  induction l with
  | nil => simp [trimP]
  | cons c rest ih =>
    simp only [trimP]
    by_cases h : trimP rest = []
    · by_cases hc : c = 0 <;> simp [h, hc]
    · simp only [if_neg h, List.length_cons]
      omega

theorem trimP_trimmed (l : List Fr) : Trimmed (trimP l) := by
  induction l with
  | nil => rfl
  | cons c rest ih =>
    show trimP (trimP (c :: rest)) = trimP (c :: rest)
    simp only [trimP]
    by_cases h : trimP rest = []
    · by_cases hc : c = 0
      · simp [h, hc, trimP]
      · simp [h, hc, trimP]
    · rw [if_neg h]
      have ih' : trimP (trimP rest) = trimP rest := ih
      show trimP (c :: trimP rest) = c :: trimP rest
      simp only [trimP, ih', if_neg h]

theorem leadC_cons (c : Fr) (l : List Fr) (h : l ≠ []) : leadC (c :: l) = leadC l := by
  unfold leadC
  cases l with
  | nil => simp at h
  | cons b m => simp [List.getD_cons_succ]

theorem leadC_trimP_ne_zero (l : List Fr) (h : trimP l ≠ []) : leadC (trimP l) ≠ 0 := by
  induction l with
  | nil => simp [trimP] at h
  | cons c rest ih =>
    simp only [trimP] at h ⊢
    by_cases hr : trimP rest = []
    · by_cases hc : c = 0
      · simp [hr, hc] at h
      · simp [hr, hc, leadC]
    · rw [if_neg hr]
      rw [leadC_cons c _ hr]
      exact ih hr

theorem trimP_length_lt (l : List Fr) (h : l ≠ []) (hz : leadC l = 0) :
    (trimP l).length < l.length := by
  induction l with
  | nil => simp at h
  | cons c rest ih =>
    cases hrest : rest with
    | nil =>
      subst hrest
      have hc : c = 0 := by simpa [leadC] using hz
      simp [trimP, hc]
    | cons b m =>
      rw [← hrest]
      have hrne : rest ≠ [] := by rw [hrest]; simp
      have hlz : leadC rest = 0 := by rw [← leadC_cons c rest hrne]; exact hz
      simp only [trimP]
      by_cases hr : trimP rest = []
      · have : 1 ≤ rest.length := List.length_pos.mpr hrne
        by_cases hc : c = 0 <;> simp [hr, hc] <;> omega
      · simp only [if_neg hr, List.length_cons]
        have := ih hrne hlz
        omega

theorem toPoly_trimmed_ne_zero (l : List Fr) (hl : Trimmed l) (h : l ≠ []) :
    toPoly l ≠ 0 := by
  intro h0
  have hlead : leadC l ≠ 0 := by
    have h1 := leadC_trimP_ne_zero l (by rwa [hl])
    rwa [hl] at h1
  apply hlead
  have hc : (toPoly l).coeff (l.length - 1) = 0 := by rw [h0]; simp
  rw [toPoly_coeff] at hc
  exact hc

/-- A normalized list denoting a nonzero constant polynomial is a singleton. -/
theorem trimmed_eq_singleton (l : List Fr) (u : Fr) (hl : Trimmed l)
    (hC : toPoly l = Polynomial.C u) (hu : u ≠ 0) : l = [u] := by
  cases l with
  | nil =>
    exfalso
    rw [toPoly_nil] at hC
    exact hu (by simpa using congrArg (fun q => Polynomial.coeff q 0) hC.symm)
  | cons a rest =>
    cases rest with
    | nil =>
      have : a = u := by
        have := congrArg (fun q => Polynomial.coeff q 0) hC
        simpa [toPoly_cons, toPoly_nil, Polynomial.coeff_X_mul_zero] using this
      rw [this]
    | cons b m =>
      exfalso
      have hlead : leadC (a :: b :: m) ≠ 0 := by
        have h1 := leadC_trimP_ne_zero (a :: b :: m) (by rw [hl]; simp)
        rwa [hl] at h1
      apply hlead
      have hlen : (a :: b :: m).length - 1 = m.length + 1 := by simp
      have hc := congrArg (fun q => Polynomial.coeff q ((a :: b :: m).length - 1)) hC
      simp only [toPoly_coeff] at hc
      rw [hlen] at hc
      simpa [leadC, Polynomial.coeff_C, hlen] using hc

/-!
### Correctness of the embedded `fmpz_mod_poly_xgcd`
-/

theorem polyDivModAux_spec (fuel : ℕ) :
    ∀ pp q : List Fr, Trimmed pp → Trimmed q → q ≠ [] → pp.length ≤ fuel →
    toPoly pp = toPoly q * toPoly (polyDivModAux fuel pp q).1 +
        toPoly (polyDivModAux fuel pp q).2
    ∧ Trimmed (polyDivModAux fuel pp q).2
    ∧ (polyDivModAux fuel pp q).2.length < q.length := by
  induction fuel with
  | zero =>
    intro pp q hpp hq hqne hlen
    have hpp0 : pp = [] := List.eq_nil_of_length_eq_zero (Nat.le_zero.mp hlen)
    subst hpp0
    refine ⟨?_, ?_, ?_⟩
    · simp [polyDivModAux, toPoly_nil]
    · simpa [polyDivModAux] using hpp
    · simpa [polyDivModAux] using List.length_pos.mpr hqne
  | succ fuel ih =>
    intro pp q hpp hq hqne hlen
    by_cases hlt : pp.length < q.length
    · have hres : polyDivModAux (fuel + 1) pp q = ([], pp) := by
        simp [polyDivModAux, hlt]
      rw [hres]
      exact ⟨by simp [toPoly_nil], hpp, hlt⟩
    · have hq0 : leadC q ≠ 0 := by
        have h1 := leadC_trimP_ne_zero q (by rwa [hq])
        rwa [hq] at h1
      have hqpos : 1 ≤ q.length := List.length_pos.mpr hqne
      have hge : q.length ≤ pp.length := not_lt.mp hlt
      set c := leadC pp * (leadC q)⁻¹ with hc
      set k := pp.length - q.length with hk
      set sub := polySub pp (List.replicate k 0 ++ polyScale c q) with hsubdef
      set r := trimP sub with hrdef
      have hres : polyDivModAux (fuel + 1) pp q =
          (polyAdd (polyDivModAux fuel r q).1 (List.replicate k 0 ++ [c]),
            (polyDivModAux fuel r q).2) := by
        rw [hrdef, hsubdef, hk, hc]
        simp only [polyDivModAux]
        rw [if_neg hlt]
      have hshiftlen : (List.replicate k (0 : Fr) ++ polyScale c q).length = pp.length := by
        simp only [List.length_append, List.length_replicate, polyScale, List.length_map, hk]
        omega
      have hsublen : sub.length = pp.length := by
        rw [hsubdef, polySub_length, hshiftlen]
        omega
      have hppne : pp ≠ [] := by
        intro h0
        rw [h0] at hge
        simp only [List.length_nil, Nat.le_zero] at hge
        omega
      have hlead : leadC sub = 0 := by
        show sub.getD (sub.length - 1) 0 = 0
        rw [hsublen, hsubdef, polySub_getD, replicate_append_getD]
        have hnk : ¬ (pp.length - 1 < k) := by omega
        rw [if_neg hnk]
        have hidx : pp.length - 1 - k = q.length - 1 := by omega
        rw [hidx, polyScale_getD, hc]
        show leadC pp - leadC pp * (leadC q)⁻¹ * leadC q = 0
        rw [mul_assoc, inv_mul_cancel₀ hq0, mul_one, sub_self]
      have hsubne : sub ≠ [] := by
        intro h0
        rw [h0] at hsublen
        exact hppne (List.eq_nil_of_length_eq_zero (by simpa using hsublen.symm))
      have hrlen : r.length < pp.length := by
        rw [hrdef]
        calc (trimP sub).length < sub.length := trimP_length_lt sub hsubne hlead
        _ = pp.length := hsublen
      have hrle : r.length ≤ fuel := Nat.lt_succ_iff.mp (lt_of_lt_of_le hrlen hlen)
      obtain ⟨ih1, ih2, ih3⟩ := ih r q (by rw [hrdef]; exact trimP_trimmed sub) hq hqne hrle
      rw [hres]
      refine ⟨?_, ih2, ih3⟩
      have hsubP : toPoly sub =
          toPoly pp - Polynomial.X ^ k * (Polynomial.C c * toPoly q) := by
        rw [hsubdef, toPoly_polySub, toPoly_replicate_append, toPoly_polyScale]
      have hrP : toPoly r = toPoly sub := by rw [hrdef]; exact toPoly_trimP sub
      have h4 : toPoly pp - Polynomial.X ^ k * (Polynomial.C c * toPoly q) =
          toPoly q * toPoly (polyDivModAux fuel r q).1 +
            toPoly (polyDivModAux fuel r q).2 := by
        rw [← hsubP, ← hrP]
        exact ih1
      have h5 := sub_eq_iff_eq_add.mp h4
      have hCc : toPoly [c] = Polynomial.C c := by simp [toPoly_cons, toPoly_nil]
      rw [toPoly_polyAdd, toPoly_replicate_append, hCc, h5]
      ring

theorem polyDivMod_spec (pp q : List Fr) (hpp : Trimmed pp) (hq : Trimmed q)
    (hqne : q ≠ []) :
    toPoly pp = toPoly q * toPoly (polyDivMod pp q).1 + toPoly (polyDivMod pp q).2
    ∧ Trimmed (polyDivMod pp q).2
    ∧ (polyDivMod pp q).2.length < q.length :=
  polyDivModAux_spec pp.length pp q hpp hq hqne le_rfl

theorem xgcdAux_spec (fuel : ℕ) :
    ∀ pp q : List Fr, Trimmed pp → Trimmed q → q.length ≤ fuel →
    toPoly (xgcdAux fuel pp q).2.1 * toPoly pp +
        toPoly (xgcdAux fuel pp q).2.2 * toPoly q = toPoly (xgcdAux fuel pp q).1
    ∧ toPoly (xgcdAux fuel pp q).1 ∣ toPoly pp
    ∧ toPoly (xgcdAux fuel pp q).1 ∣ toPoly q := by
  induction fuel with
  | zero =>
    intro pp q hpp hq hlen
    have hq0 : q = [] := List.eq_nil_of_length_eq_zero (Nat.le_zero.mp hlen)
    subst hq0
    refine ⟨by simp [xgcdAux, toPoly_cons, toPoly_nil], ?_, ?_⟩
    · simpa [xgcdAux] using dvd_refl (toPoly pp)
    · simp [xgcdAux, toPoly_nil]
  | succ fuel ih =>
    intro pp q hpp hq hlen
    by_cases hq0 : q = []
    · subst hq0
      have hres : xgcdAux (fuel + 1) pp [] = (pp, [1], []) := by simp [xgcdAux]
      rw [hres]
      exact ⟨by simp [toPoly_cons, toPoly_nil], dvd_refl _,
        by rw [toPoly_nil]; exact dvd_zero _⟩
    · set dm := polyDivMod pp q with hdm
      set res := xgcdAux fuel q dm.2 with hresdef
      have hres : xgcdAux (fuel + 1) pp q =
          (res.1, res.2.2, polySub res.2.1 (polyMul res.2.2 dm.1)) := by
        rw [hresdef, hdm]
        simp only [xgcdAux]
        rw [if_neg hq0]
      obtain ⟨hdiveq, hrem_tr, hrem_lt⟩ := polyDivMod_spec pp q hpp hq hq0
      have hrle : dm.2.length ≤ fuel := by
        rw [hdm]
        omega
      obtain ⟨ihB, ihD1, ihD2⟩ := ih q dm.2 hq (by rw [hdm]; exact hrem_tr) hrle
      rw [hres]
      refine ⟨?_, ?_, ihD1⟩
      · show toPoly res.2.2 * toPoly pp +
            toPoly (polySub res.2.1 (polyMul res.2.2 dm.1)) * toPoly q = toPoly res.1
        rw [toPoly_polySub, toPoly_polyMul, hdiveq]
        linear_combination ihB
      · show toPoly res.1 ∣ toPoly pp
        rw [hdiveq]
        exact dvd_add (ihD1.mul_right _) ihD2

theorem fmpzModPolyXgcd_spec (A B : List Fr)
    (hco : IsCoprime (toPoly A) (toPoly B)) :
    (fmpzModPolyXgcd A B).1 = [1]
    ∧ toPoly (fmpzModPolyXgcd A B).2.1 * toPoly A +
        toPoly (fmpzModPolyXgcd A B).2.2 * toPoly B = 1 := by
  obtain ⟨bez, dvdA, dvdB⟩ := xgcdAux_spec ((trimP B).length + 1) (trimP A) (trimP B)
    (trimP_trimmed A) (trimP_trimmed B) (by omega)
  rw [toPoly_trimP A] at bez dvdA
  rw [toPoly_trimP B] at bez dvdB
  set res := xgcdAux ((trimP B).length + 1) (trimP A) (trimP B) with hres
  have hu : IsUnit (toPoly res.1) := hco.isUnit_of_dvd' dvdA dvdB
  obtain ⟨u, huu, hCu⟩ := Polynomial.isUnit_iff.mp hu
  have hune : u ≠ 0 := huu.ne_zero
  have hg : trimP res.1 = [u] := by
    refine trimmed_eq_singleton (trimP res.1) u (trimP_trimmed _) ?_ hune
    rw [toPoly_trimP]
    exact hCu.symm
  have hcval : leadC (trimP res.1) = u := by simp [hg, leadC]
  have hcne : leadC (trimP res.1) ≠ 0 := by rw [hcval]; exact hune
  have hunfold : fmpzModPolyXgcd A B =
      if leadC (trimP res.1) = 0 then ([], [], [])
      else (polyScale (leadC (trimP res.1))⁻¹ (trimP res.1),
            polyScale (leadC (trimP res.1))⁻¹ (trimP res.2.1),
            polyScale (leadC (trimP res.1))⁻¹ (trimP res.2.2)) := by
    rw [hres]
    simp only [fmpzModPolyXgcd]
  rw [hunfold, if_neg hcne, hcval, hg]
  constructor
  · show polyScale u⁻¹ [u] = [1]
    simp [polyScale, inv_mul_cancel₀ hune]
  · rw [toPoly_polyScale, toPoly_polyScale, toPoly_trimP, toPoly_trimP]
    have hfactor : Polynomial.C u⁻¹ * toPoly res.2.1 * toPoly A +
        Polynomial.C u⁻¹ * toPoly res.2.2 * toPoly B =
        Polynomial.C u⁻¹ * (toPoly res.2.1 * toPoly A + toPoly res.2.2 * toPoly B) := by
      ring
    rw [hfactor, bez, ← hCu, ← Polynomial.C_mul, inv_mul_cancel₀ hune, Polynomial.C_1]

/-!
### Characteristic polynomials from root sets
-/

theorem toPoly_fromRoots_foldl (l : List ℤ) : ∀ acc : List Fr,
    toPoly (l.foldl (fun acc (r : ℤ) => polyMul acc [-(r : Fr), 1]) acc) =
      toPoly acc * (l.map (fun (r : ℤ) => Polynomial.X - Polynomial.C (r : Fr))).prod := by
  induction l with
  | nil => intro acc; simp
  | cons r l ih =>
    intro acc
    rw [List.foldl_cons, ih, List.map_cons, List.prod_cons, toPoly_polyMul]
    have hlin : toPoly [-(r : Fr), 1] = Polynomial.X - Polynomial.C (r : Fr) := by
      simp [toPoly_cons, toPoly_nil]
      ring
    rw [hlin]
    ring

theorem toPoly_fromRoots (S : Finset ℤ) :
    toPoly (fromRoots S) = ∏ x ∈ S, (Polynomial.X - Polynomial.C (x : Fr)) := by
  unfold fromRoots
  rw [toPoly_fromRoots_foldl]
  have h1 : toPoly [1] = 1 := by simp [toPoly_cons, toPoly_nil]
  rw [h1, one_mul]
  rw [Finset.prod_eq_multiset_prod, ← Finset.sort_eq (· ≤ ·) S, Multiset.map_coe,
    Multiset.prod_coe]

theorem evalPoly_fromRoots (S : Finset ℤ) (a : Fr) :
    evalPoly (fromRoots S) a = charEval S a := by
  rw [evalPoly_toPoly, toPoly_fromRoots, Polynomial.eval_prod]
  unfold charEval
  apply Finset.prod_congr rfl
  intro x _
  simp

/-- Distinct `int` elements stay distinct in `Fr`: the modulus exceeds `2^32`. -/
theorem int32_cast_ne (a b : ℤ) (ha : a.natAbs ≤ 2 ^ 31) (hb : b.natAbs ≤ 2 ^ 31)
    (hne : a ≠ b) : (a : Fr) ≠ (b : Fr) := by
  intro h
  have hmod := (ZMod.intCast_eq_intCast_iff a b p).mp h
  have hdvd : (p : ℤ) ∣ b - a := Int.ModEq.dvd hmod
  have hb0 : b - a ≠ 0 := sub_ne_zero.mpr (Ne.symm hne)
  have hle : (p : ℤ) ≤ |b - a| := Int.le_of_dvd (abs_pos.mpr hb0) ((dvd_abs _ _).mpr hdvd)
  have ha' : |a| ≤ 2 ^ 31 := by
    rw [← Int.natCast_natAbs]
    exact_mod_cast ha
  have hb' : |b| ≤ 2 ^ 31 := by
    rw [← Int.natCast_natAbs]
    exact_mod_cast hb
  have habs : |b - a| ≤ 2 ^ 32 := by
    calc |b - a| ≤ |b| + |a| := abs_sub b a
    _ ≤ 2 ^ 31 + 2 ^ 31 := add_le_add hb' ha'
    _ = 2 ^ 32 := by norm_num
  have hplarge : (2 ^ 32 : ℤ) < (p : ℤ) := by
    have h0 : (2 ^ 32 : ℕ) < p := by decide
    exact_mod_cast h0
  linarith

theorem isCoprime_X_sub_C (a b : Fr) (h : a ≠ b) :
    IsCoprime (Polynomial.X - Polynomial.C a) (Polynomial.X - Polynomial.C b) := by
  refine ⟨Polynomial.C (b - a)⁻¹, -Polynomial.C (b - a)⁻¹, ?_⟩
  have hba : b - a ≠ 0 := sub_ne_zero.mpr (Ne.symm h)
  have hcalc : Polynomial.C (b - a)⁻¹ * (Polynomial.X - Polynomial.C a) +
      -Polynomial.C (b - a)⁻¹ * (Polynomial.X - Polynomial.C b) =
      Polynomial.C (b - a)⁻¹ * (Polynomial.C b - Polynomial.C a) := by ring
  rw [hcalc, ← Polynomial.C_sub, ← Polynomial.C_mul, inv_mul_cancel₀ hba, Polynomial.C_1]

theorem isCoprime_fromRoots (dA dB : Finset ℤ) (hdisj : Disjoint dA dB)
    (hA : ∀ x ∈ dA, x.natAbs ≤ 2 ^ 31) (hB : ∀ x ∈ dB, x.natAbs ≤ 2 ^ 31) :
    IsCoprime (toPoly (fromRoots dA)) (toPoly (fromRoots dB)) := by
  rw [toPoly_fromRoots, toPoly_fromRoots]
  apply IsCoprime.prod_left
  intro a ha
  apply IsCoprime.prod_right
  intro b hb
  apply isCoprime_X_sub_C
  apply int32_cast_ne a b (hA a ha) (hB b hb)
  exact fun hab => (Finset.disjoint_left.mp hdisj ha) (hab ▸ hb)

/-!
### State-machine lemmas for the accumulator
-/

theorem evaluate_eq_charEval (S : Finset ℤ) (a : Fr) :
    CharacteristicPolynomial.evaluate ⟨S⟩ a = charEval S a := by
  unfold CharacteristicPolynomial.evaluate charEval
  by_cases h : S = ∅
  · simp [h]
  · rw [if_neg h]

theorem addElement_fst (acc : ExpressiveAccumulator) (x : ℤ) :
    (acc.addElement x).1 =
      if x ∈ acc.elements then acc
      else ExpressiveAccumulator.updateAccumulatorValue
        { acc with elements := insert x acc.elements,
                   polynomial := acc.polynomial.addElement x } := rfl

theorem addElement_snd (acc : ExpressiveAccumulator) (x : ℤ) :
    (acc.addElement x).2 =
      { op_type := .ADD, element := x, old_digest := acc.getDigest,
        new_digest := (acc.addElement x).1.getDigest,
        membership_proof := ⟨0, false⟩, is_valid := true } := rfl

theorem generateMembershipProof_of_mem (acc : ExpressiveAccumulator) (x : ℤ)
    (hx : x ∈ acc.elements) :
    acc.generateMembershipProof x =
      { witness_g2 := CharacteristicPolynomial.evaluate ⟨acc.elements.erase x⟩
          acc.trusted_setup.secret_s,
        is_member := true } := by
  simp [ExpressiveAccumulator.generateMembershipProof, hx]

theorem generateMembershipProof_of_not_mem (acc : ExpressiveAccumulator) (x : ℤ)
    (hx : x ∉ acc.elements) :
    acc.generateMembershipProof x = { witness_g2 := 0, is_member := false } := by
  simp [ExpressiveAccumulator.generateMembershipProof, hx]

theorem deleteElement_of_not_mem (acc : ExpressiveAccumulator) (x : ℤ)
    (hx : x ∉ acc.elements) :
    acc.deleteElement x =
      (acc, { op_type := .DELETE, element := x, old_digest := acc.getDigest,
              new_digest := acc.getDigest, membership_proof := ⟨0, false⟩,
              is_valid := false }) := by
  simp [ExpressiveAccumulator.deleteElement, hx]

theorem deleteElement_of_mem (acc : ExpressiveAccumulator) (x : ℤ)
    (hx : x ∈ acc.elements) :
    acc.deleteElement x =
      (ExpressiveAccumulator.updateAccumulatorValue
        { acc with polynomial := acc.polynomial.removeElement x,
                   elements := acc.elements.erase x },
       { op_type := .DELETE, element := x, old_digest := acc.getDigest,
         new_digest := (ExpressiveAccumulator.updateAccumulatorValue
          { acc with polynomial := acc.polynomial.removeElement x,
                     elements := acc.elements.erase x }).getDigest,
         membership_proof := acc.generateMembershipProof x,
         is_valid := true }) := by
  simp [ExpressiveAccumulator.deleteElement, hx, generateMembershipProof_of_mem acc x hx]

theorem updateAccumulatorValue_G1 (acc : ExpressiveAccumulator)
    (h : acc.group_type = GroupType.G1_TYPE) :
    acc.updateAccumulatorValue =
      { acc with digest_g1 :=
          ⟨acc.polynomial.evaluate acc.trusted_setup.secret_s⟩ } := by
  unfold ExpressiveAccumulator.updateAccumulatorValue
  rw [h]

theorem updateAccumulatorValue_G2 (acc : ExpressiveAccumulator)
    (h : acc.group_type = GroupType.G2_TYPE) :
    acc.updateAccumulatorValue =
      { acc with digest_g2 :=
          ⟨acc.polynomial.evaluate acc.trusted_setup.secret_s⟩ } := by
  unfold ExpressiveAccumulator.updateAccumulatorValue
  rw [h]

theorem reachableAdd_reachable (acc : ExpressiveAccumulator) (h : ReachableAdd acc) :
    Reachable acc := by
  induction h with
  | mk setup t => exact Reachable.mk setup t
  | add acc x hr ih => exact Reachable.add acc x ih

/-- The central reachability invariant: the polynomial cache tracks the element
set, the digest of the chosen group is `g^{P_S(s)}`, and the digest of the
other group stays the identity. -/
theorem reachable_invariant (acc : ExpressiveAccumulator) (h : Reachable acc) :
    acc.polynomial.elements = acc.elements
    ∧ (acc.group_type = GroupType.G1_TYPE →
        acc.digest_g1.value = charEval acc.elements acc.trusted_setup.secret_s
        ∧ acc.digest_g2.value = 0)
    ∧ (acc.group_type = GroupType.G2_TYPE →
        acc.digest_g2.value = charEval acc.elements acc.trusted_setup.secret_s
        ∧ acc.digest_g1.value = 0) := by
  induction h with
  | mk setup t =>
    cases t <;> simp [mkAccumulator, charEval]
  | add acc x hr ih =>
    obtain ⟨ihsync, ihg1, ihg2⟩ := ih
    rw [addElement_fst]
    by_cases hx : x ∈ acc.elements
    · rw [if_pos hx]
      exact ⟨ihsync, ihg1, ihg2⟩
    · rw [if_neg hx]
      have hpoly : CharacteristicPolynomial.addElement acc.polynomial x =
          ⟨insert x acc.elements⟩ := by
        simp [CharacteristicPolynomial.addElement, ihsync]
      cases hgt : acc.group_type with
      | G1_TYPE =>
        rw [updateAccumulatorValue_G1 _ (by simpa using hgt)]
        refine ⟨by simp [hpoly], fun _ => ⟨?_, ?_⟩, fun hg2 => ?_⟩
        · show (acc.polynomial.addElement x).evaluate acc.trusted_setup.secret_s =
            charEval (insert x acc.elements) acc.trusted_setup.secret_s
          rw [hpoly, evaluate_eq_charEval]
        · show acc.digest_g2.value = 0
          exact (ihg1 hgt).2
        · exact GroupType.noConfusion (hg2 : GroupType.G1_TYPE = GroupType.G2_TYPE)
      | G2_TYPE =>
        rw [updateAccumulatorValue_G2 _ (by simpa using hgt)]
        refine ⟨by simp [hpoly], fun hg1 => ?_, fun _ => ⟨?_, ?_⟩⟩
        · exact GroupType.noConfusion (hg1 : GroupType.G2_TYPE = GroupType.G1_TYPE)
        · show (acc.polynomial.addElement x).evaluate acc.trusted_setup.secret_s =
            charEval (insert x acc.elements) acc.trusted_setup.secret_s
          rw [hpoly, evaluate_eq_charEval]
        · show acc.digest_g1.value = 0
          exact (ihg2 hgt).2
  | del acc x hr ih =>
    obtain ⟨ihsync, ihg1, ihg2⟩ := ih
    by_cases hx : x ∈ acc.elements
    · have hfst : (acc.deleteElement x).1 = ExpressiveAccumulator.updateAccumulatorValue
          { acc with polynomial := acc.polynomial.removeElement x,
                     elements := acc.elements.erase x } := by
        rw [deleteElement_of_mem acc x hx]
      rw [hfst]
      have hpoly : CharacteristicPolynomial.removeElement acc.polynomial x =
          ⟨acc.elements.erase x⟩ := by
        simp [CharacteristicPolynomial.removeElement, ihsync]
      cases hgt : acc.group_type with
      | G1_TYPE =>
        rw [updateAccumulatorValue_G1 _ (by simpa using hgt)]
        refine ⟨by simp [hpoly], fun _ => ⟨?_, ?_⟩, fun hg2 => ?_⟩
        · show (acc.polynomial.removeElement x).evaluate acc.trusted_setup.secret_s =
            charEval (acc.elements.erase x) acc.trusted_setup.secret_s
          rw [hpoly, evaluate_eq_charEval]
        · show acc.digest_g2.value = 0
          exact (ihg1 hgt).2
        · exact GroupType.noConfusion (hg2 : GroupType.G1_TYPE = GroupType.G2_TYPE)
      | G2_TYPE =>
        rw [updateAccumulatorValue_G2 _ (by simpa using hgt)]
        refine ⟨by simp [hpoly], fun hg1 => ?_, fun _ => ⟨?_, ?_⟩⟩
        · exact GroupType.noConfusion (hg1 : GroupType.G2_TYPE = GroupType.G1_TYPE)
        · show (acc.polynomial.removeElement x).evaluate acc.trusted_setup.secret_s =
            charEval (acc.elements.erase x) acc.trusted_setup.secret_s
          rw [hpoly, evaluate_eq_charEval]
        · show acc.digest_g1.value = 0
          exact (ihg2 hgt).2
    · have hfst : (acc.deleteElement x).1 = acc := by
        rw [deleteElement_of_not_mem acc x hx]
      rw [hfst]
      exact ⟨ihsync, ihg1, ihg2⟩

/-!
### Helper lemmas for the claims
-/

theorem fmpzModPolyIsOne_one : fmpzModPolyIsOne [1] = true := by
  simp [fmpzModPolyIsOne, trimP]

theorem charEval_inter_sdiff (S T : Finset ℤ) (h : T ⊆ S) (a : Fr) :
    charEval T a * charEval (S \ T) a = charEval S a := by
  unfold charEval
  rw [← Finset.prod_union Finset.disjoint_sdiff, Finset.union_sdiff_of_subset h]

theorem charEval_erase (S : Finset ℤ) (x : ℤ) (hx : x ∈ S) (a : Fr) :
    charEval S a = (a - (x : Fr)) * charEval (S.erase x) a :=
  (Finset.mul_prod_erase S _ hx).symm

theorem sdiff_inter_disjoint (A B : Finset ℤ) :
    Disjoint (A \ (A ∩ B)) (B \ (A ∩ B)) := by
  rw [Finset.disjoint_left]
  intro x hxa hxb
  exact (Finset.mem_sdiff.mp hxa).2
    (Finset.mem_inter.mpr ⟨(Finset.mem_sdiff.mp hxa).1, (Finset.mem_sdiff.mp hxb).1⟩)

theorem generateIntersectionProof_of_one (acc1 acc2 : ExpressiveAccumulator)
    (ts : ExpressiveTrustedSetup)
    (hone : (fmpzModPolyXgcd
        (fromRoots (acc1.elements \ (acc1.elements ∩ acc2.elements)))
        (fromRoots (acc2.elements \ (acc1.elements ∩ acc2.elements)))).1 = [1]) :
    ExpressiveAccumulator.generateIntersectionProof acc1 acc2 ts =
      { intersection_digest_g1 :=
          ⟨evalPoly (fromRoots (acc1.elements ∩ acc2.elements)) ts.secret_s⟩,
        witness_QA_g2 := evalPoly
          (fromRoots (acc1.elements \ (acc1.elements ∩ acc2.elements))) ts.secret_s,
        witness_QB_g2 := evalPoly
          (fromRoots (acc2.elements \ (acc1.elements ∩ acc2.elements))) ts.secret_s,
        witness_a_g1 := evalPoly (fmpzModPolyXgcd
          (fromRoots (acc1.elements \ (acc1.elements ∩ acc2.elements)))
          (fromRoots (acc2.elements \ (acc1.elements ∩ acc2.elements)))).2.1 ts.secret_s,
        witness_b_g1 := evalPoly (fmpzModPolyXgcd
          (fromRoots (acc1.elements \ (acc1.elements ∩ acc2.elements)))
          (fromRoots (acc2.elements \ (acc1.elements ∩ acc2.elements)))).2.2 ts.secret_s,
        is_valid := true } := by
  simp only [ExpressiveAccumulator.generateIntersectionProof,
    CharacteristicPolynomial.inter]
  rw [hone, fmpzModPolyIsOne_one]
  simp

theorem verifyIntersectionProof_of_checks (digest_A digest_B : AccumulatorDigest)
    (proof : IntersectionProof) (ts : ExpressiveTrustedSetup)
    (hv : proof.is_valid = true)
    (h1 : pairing digest_A.value 1 =
      pairing proof.intersection_digest_g1.value proof.witness_QA_g2)
    (h2 : pairing digest_B.value 1 =
      pairing proof.intersection_digest_g1.value proof.witness_QB_g2)
    (h3 : pairing proof.witness_a_g1 proof.witness_QA_g2 +
      pairing proof.witness_b_g1 proof.witness_QB_g2 = pairing 1 1) :
    ExpressiveAccumulator.verifyIntersectionProof digest_A digest_B proof ts = true := by
  unfold ExpressiveAccumulator.verifyIntersectionProof
  simp [hv, h1, h2, h3]

/-!
### The claims
-/

/-- Claim C1: for accumulators `A`, `B` over the same trusted setup, both in
group `G1` and populated only through `addElement` (elements within the C++
`int` range), `generateIntersectionProof` returns a proof with
`is_valid = true`, whose intersection digest is `g1^{P_I(s)}` for
`I = S_A ∩ S_B`, and `verifyIntersectionProof` accepts it against the two
accumulator digests. -/
theorem C1_intersection_correct (ts : ExpressiveTrustedSetup)
    (acc1 acc2 : ExpressiveAccumulator)
    (h1 : ReachableAdd acc1) (h2 : ReachableAdd acc2)
    (hs1 : acc1.trusted_setup = ts) (hs2 : acc2.trusted_setup = ts)
    (ht1 : acc1.group_type = GroupType.G1_TYPE)
    (ht2 : acc2.group_type = GroupType.G1_TYPE)
    (hr1 : ∀ x ∈ acc1.elements, x.natAbs ≤ 2 ^ 31)
    (hr2 : ∀ x ∈ acc2.elements, x.natAbs ≤ 2 ^ 31) :
    (ExpressiveAccumulator.generateIntersectionProof acc1 acc2 ts).is_valid = true
    ∧ (ExpressiveAccumulator.generateIntersectionProof acc1 acc2 ts).intersection_digest_g1.value
        = charEval (acc1.elements ∩ acc2.elements) ts.secret_s
    ∧ ExpressiveAccumulator.verifyIntersectionProof acc1.getDigest acc2.getDigest
        (ExpressiveAccumulator.generateIntersectionProof acc1 acc2 ts) ts = true := by
  obtain ⟨-, hgg1, -⟩ := reachable_invariant acc1 (reachableAdd_reachable acc1 h1)
  obtain ⟨-, hgg2, -⟩ := reachable_invariant acc2 (reachableAdd_reachable acc2 h2)
  obtain ⟨hd1, -⟩ := hgg1 ht1
  obtain ⟨hd2, -⟩ := hgg2 ht2
  rw [hs1] at hd1
  rw [hs2] at hd2
  have hdisj : Disjoint (acc1.elements \ (acc1.elements ∩ acc2.elements))
      (acc2.elements \ (acc1.elements ∩ acc2.elements)) :=
    sdiff_inter_disjoint acc1.elements acc2.elements
  have hco := isCoprime_fromRoots _ _ hdisj
    (fun x hx => hr1 x (Finset.mem_sdiff.mp hx).1)
    (fun x hx => hr2 x (Finset.mem_sdiff.mp hx).1)
  obtain ⟨hone, hbez⟩ := fmpzModPolyXgcd_spec
    (fromRoots (acc1.elements \ (acc1.elements ∩ acc2.elements)))
    (fromRoots (acc2.elements \ (acc1.elements ∩ acc2.elements))) hco
  have hgen := generateIntersectionProof_of_one acc1 acc2 ts hone
  have heval : evalPoly (fmpzModPolyXgcd
        (fromRoots (acc1.elements \ (acc1.elements ∩ acc2.elements)))
        (fromRoots (acc2.elements \ (acc1.elements ∩ acc2.elements)))).2.1 ts.secret_s *
      evalPoly (fromRoots (acc1.elements \ (acc1.elements ∩ acc2.elements))) ts.secret_s +
      evalPoly (fmpzModPolyXgcd
        (fromRoots (acc1.elements \ (acc1.elements ∩ acc2.elements)))
        (fromRoots (acc2.elements \ (acc1.elements ∩ acc2.elements)))).2.2 ts.secret_s *
      evalPoly (fromRoots (acc2.elements \ (acc1.elements ∩ acc2.elements))) ts.secret_s = 1 := by
    have hev := congrArg (Polynomial.eval ts.secret_s) hbez
    simp only [Polynomial.eval_add, Polynomial.eval_mul, Polynomial.eval_one] at hev
    simpa only [← evalPoly_toPoly] using hev
  refine ⟨by rw [hgen], by rw [hgen, evalPoly_fromRoots], ?_⟩
  rw [hgen]
  apply verifyIntersectionProof_of_checks
  · rfl
  · show pairing acc1.getDigest.value 1 = pairing
      (evalPoly (fromRoots (acc1.elements ∩ acc2.elements)) ts.secret_s)
      (evalPoly (fromRoots (acc1.elements \ (acc1.elements ∩ acc2.elements))) ts.secret_s)
    unfold pairing ExpressiveAccumulator.getDigest
    rw [mul_one, hd1, evalPoly_fromRoots, evalPoly_fromRoots,
      charEval_inter_sdiff acc1.elements (acc1.elements ∩ acc2.elements)
        Finset.inter_subset_left]
  · show pairing acc2.getDigest.value 1 = pairing
      (evalPoly (fromRoots (acc1.elements ∩ acc2.elements)) ts.secret_s)
      (evalPoly (fromRoots (acc2.elements \ (acc1.elements ∩ acc2.elements))) ts.secret_s)
    unfold pairing ExpressiveAccumulator.getDigest
    rw [mul_one, hd2, evalPoly_fromRoots, evalPoly_fromRoots,
      charEval_inter_sdiff acc2.elements (acc1.elements ∩ acc2.elements)
        Finset.inter_subset_right]
  · show pairing (evalPoly (fmpzModPolyXgcd
        (fromRoots (acc1.elements \ (acc1.elements ∩ acc2.elements)))
        (fromRoots (acc2.elements \ (acc1.elements ∩ acc2.elements)))).2.1 ts.secret_s)
      (evalPoly (fromRoots (acc1.elements \ (acc1.elements ∩ acc2.elements))) ts.secret_s) +
      pairing (evalPoly (fmpzModPolyXgcd
        (fromRoots (acc1.elements \ (acc1.elements ∩ acc2.elements)))
        (fromRoots (acc2.elements \ (acc1.elements ∩ acc2.elements)))).2.2 ts.secret_s)
      (evalPoly (fromRoots (acc2.elements \ (acc1.elements ∩ acc2.elements))) ts.secret_s)
      = pairing 1 1
    unfold pairing
    rw [heval, one_mul]

/-- Witness for C1 at `s = 5`, `A = {1,3,9}`, `B = {2,3}` (so `I = {3}`). -/
theorem C1_intersection_correct_witness :
    ReachableAdd accW1 ∧ ReachableAdd accW2
    ∧ ((ExpressiveAccumulator.generateIntersectionProof accW1 accW2 tsW).is_valid = true
      ∧ (ExpressiveAccumulator.generateIntersectionProof accW1 accW2 tsW).intersection_digest_g1.value
          = charEval (accW1.elements ∩ accW2.elements) tsW.secret_s
      ∧ ExpressiveAccumulator.verifyIntersectionProof accW1.getDigest accW2.getDigest
          (ExpressiveAccumulator.generateIntersectionProof accW1 accW2 tsW) tsW = true) := by
  have hr1 : ReachableAdd accW1 :=
    ReachableAdd.add _ 9 (ReachableAdd.add _ 3 (ReachableAdd.add _ 1
      (ReachableAdd.mk tsW GroupType.G1_TYPE)))
  have hr2 : ReachableAdd accW2 :=
    ReachableAdd.add _ 3 (ReachableAdd.add _ 2
      (ReachableAdd.mk tsW GroupType.G1_TYPE))
  exact ⟨hr1, hr2, C1_intersection_correct tsW accW1 accW2 hr1 hr2
    (by decide) (by decide) (by decide) (by decide) (by decide) (by decide)⟩

/-- Claim C2, counterexample: a proof whose three pairing equations all hold
(for digests `g1^1`, `g1^1`) but whose `is_valid` flag is `false` is rejected
by `verifyIntersectionProof`, so the claimed "iff the three equations hold"
fails as stated. -/
theorem C2_counterexample :
    pairing (1 : Fr) 1 = pairing proofW2.intersection_digest_g1.value proofW2.witness_QA_g2
    ∧ pairing (1 : Fr) 1 = pairing proofW2.intersection_digest_g1.value proofW2.witness_QB_g2
    ∧ pairing proofW2.witness_a_g1 proofW2.witness_QA_g2 +
        pairing proofW2.witness_b_g1 proofW2.witness_QB_g2 = pairing 1 1
    ∧ ExpressiveAccumulator.verifyIntersectionProof ⟨1⟩ ⟨1⟩ proofW2 tsW = false := by
  refine ⟨by decide, by decide, by decide, ?_⟩
  simp [ExpressiveAccumulator.verifyIntersectionProof, proofW2]

/-- Claim C2, amended: for every pair of digests and every `IntersectionProof`
whose `is_valid` flag is set, `verifyIntersectionProof` returns `true` iff the
three pairing equations hold (the verifier additionally rejects any proof whose
`is_valid` flag is unset). -/
theorem C2_amended (digest_A digest_B : AccumulatorDigest) (proof : IntersectionProof)
    (ts : ExpressiveTrustedSetup) (hv : proof.is_valid = true) :
    ExpressiveAccumulator.verifyIntersectionProof digest_A digest_B proof ts = true ↔
      (pairing digest_A.value 1 =
        pairing proof.intersection_digest_g1.value proof.witness_QA_g2
      ∧ pairing digest_B.value 1 =
        pairing proof.intersection_digest_g1.value proof.witness_QB_g2
      ∧ pairing proof.witness_a_g1 proof.witness_QA_g2 +
          pairing proof.witness_b_g1 proof.witness_QB_g2 = pairing 1 1) := by
  unfold ExpressiveAccumulator.verifyIntersectionProof
  rw [hv]
  split_ifs with h1 h2 h3 <;> simp_all

/-- Witness for the amended C2 at a concrete verifying instance. -/
theorem C2_amended_witness :
    proofW2v.is_valid = true
    ∧ (ExpressiveAccumulator.verifyIntersectionProof ⟨1⟩ ⟨1⟩ proofW2v tsW = true ↔
      (pairing (1 : Fr) 1 =
        pairing proofW2v.intersection_digest_g1.value proofW2v.witness_QA_g2
      ∧ pairing (1 : Fr) 1 =
        pairing proofW2v.intersection_digest_g1.value proofW2v.witness_QB_g2
      ∧ pairing proofW2v.witness_a_g1 proofW2v.witness_QA_g2 +
          pairing proofW2v.witness_b_g1 proofW2v.witness_QB_g2 = pairing 1 1)) :=
  ⟨rfl, C2_amended ⟨1⟩ ⟨1⟩ proofW2v tsW rfl⟩

/-- Claim C3, counterexample: unconditional membership soundness fails in the
group model.  For the accumulator holding `{1, 3, 9}` under `s = 5` and the
non-member `x = 4`, the proof `{W = g2^{P_S(5)}, is_member = true}` satisfies
`e(D, g2) = e(g1^{s-x}, W)` (here `s - x = 1`), so `verifyMembershipProof`
accepts a membership proof for an element outside the set. -/
theorem C3_counterexample :
    ((4 : ℤ) ∉ accW1.elements)
    ∧ (MembershipProof.mk (charEval accW1.elements (5 : Fr)) true).is_member = true
    ∧ ExpressiveAccumulator.verifyMembershipProof accW1.getDigest 4
        ⟨charEval accW1.elements (5 : Fr), true⟩ tsW = true := by decide

/-- Claim C3, amended: for `x ∉ S` the proof generated by the accumulator has
`is_member = false` and every such proof is rejected; but soundness is only
computational — whenever `s ≢ x` a witness exponent accepted by the verifier
exists (namely `P_S(s)/(s-x)`), it is merely infeasible to compute without the
trapdoor. -/
theorem C3_amended (acc : ExpressiveAccumulator) (h : Reachable acc) (x : ℤ)
    (hx : x ∉ acc.elements) (ht : acc.group_type = GroupType.G1_TYPE) :
    (acc.generateMembershipProof x).is_member = false
    ∧ (∀ (digest : AccumulatorDigest) (ts : ExpressiveTrustedSetup),
        ExpressiveAccumulator.verifyMembershipProof digest x
          (acc.generateMembershipProof x) ts = false)
    ∧ (acc.trusted_setup.secret_s ≠ (x : Fr) →
        ∃ w : Fr, ExpressiveAccumulator.verifyMembershipProof acc.getDigest x
          ⟨w, true⟩ acc.trusted_setup = true) := by
  obtain ⟨-, hgg1, -⟩ := reachable_invariant acc h
  obtain ⟨hd, -⟩ := hgg1 ht
  rw [generateMembershipProof_of_not_mem acc x hx]
  refine ⟨rfl, ?_, ?_⟩
  · intro digest ts
    simp [ExpressiveAccumulator.verifyMembershipProof]
  · intro hs
    refine ⟨(acc.trusted_setup.secret_s - (x : Fr))⁻¹ *
      charEval acc.elements acc.trusted_setup.secret_s, ?_⟩
    have hne : acc.trusted_setup.secret_s - (x : Fr) ≠ 0 := sub_ne_zero.mpr hs
    have hkey : pairing acc.getDigest.value 1 =
        pairing (acc.trusted_setup.secret_s - (x : Fr))
          ((acc.trusted_setup.secret_s - (x : Fr))⁻¹ *
            charEval acc.elements acc.trusted_setup.secret_s) := by
      unfold pairing
      rw [mul_one, ← mul_assoc, mul_inv_cancel₀ hne, one_mul]
      exact hd
    simp [ExpressiveAccumulator.verifyMembershipProof, hkey]

/-- Witness for the amended C3 at the concrete instance of the counterexample. -/
theorem C3_amended_witness :
    Reachable accW1 ∧ ((4 : ℤ) ∉ accW1.elements)
    ∧ (accW1.generateMembershipProof 4).is_member = false
    ∧ ExpressiveAccumulator.verifyMembershipProof accW1.getDigest 4
        (accW1.generateMembershipProof 4) tsW = false
    ∧ (∃ w : Fr, ExpressiveAccumulator.verifyMembershipProof accW1.getDigest 4
        ⟨w, true⟩ accW1.trusted_setup = true) := by
  have hr : Reachable accW1 :=
    Reachable.add _ 9 (Reachable.add _ 3 (Reachable.add _ 1
      (Reachable.mk tsW GroupType.G1_TYPE)))
  have hmain := C3_amended accW1 hr 4 (by decide) (by decide)
  exact ⟨hr, by decide, hmain.1, hmain.2.1 accW1.getDigest tsW,
    hmain.2.2 (by decide)⟩

/-- Claim C4: for a `G1` accumulator and any member `x`, the generated
membership proof has `is_member = true`, carries the witness
`g2^{Q(s)}` with `Q(z) = ∏_{y ∈ S, y ≠ x} (z - y)`, and verifies against the
accumulator's own digest and setup. -/
theorem C4_membership_complete (acc : ExpressiveAccumulator) (h : Reachable acc)
    (ht : acc.group_type = GroupType.G1_TYPE) (x : ℤ) (hx : x ∈ acc.elements) :
    (acc.generateMembershipProof x).is_member = true
    ∧ (acc.generateMembershipProof x).witness_g2 =
        charEval (acc.elements.erase x) acc.trusted_setup.secret_s
    ∧ ExpressiveAccumulator.verifyMembershipProof acc.getDigest x
        (acc.generateMembershipProof x) acc.trusted_setup = true := by
  obtain ⟨-, hgg1, -⟩ := reachable_invariant acc h
  obtain ⟨hd, -⟩ := hgg1 ht
  rw [generateMembershipProof_of_mem acc x hx]
  refine ⟨rfl, evaluate_eq_charEval _ _, ?_⟩
  have hkey : pairing acc.getDigest.value 1 =
      pairing (acc.trusted_setup.secret_s - (x : Fr))
        (CharacteristicPolynomial.evaluate ⟨acc.elements.erase x⟩
          acc.trusted_setup.secret_s) := by
    unfold pairing
    rw [mul_one, evaluate_eq_charEval]
    show acc.digest_g1.value = _
    rw [hd, charEval_erase acc.elements x hx]
  simp [ExpressiveAccumulator.verifyMembershipProof, hkey]

/-- Witness for C4: membership of `3` in the accumulator holding `{1,3,9}`. -/
theorem C4_membership_complete_witness :
    Reachable accW1 ∧ ((3 : ℤ) ∈ accW1.elements)
    ∧ (accW1.generateMembershipProof 3).is_member = true
    ∧ (accW1.generateMembershipProof 3).witness_g2 =
        charEval (accW1.elements.erase 3) accW1.trusted_setup.secret_s
    ∧ ExpressiveAccumulator.verifyMembershipProof accW1.getDigest 3
        (accW1.generateMembershipProof 3) accW1.trusted_setup = true := by
  have hr : Reachable accW1 :=
    Reachable.add _ 9 (Reachable.add _ 3 (Reachable.add _ 1
      (Reachable.mk tsW GroupType.G1_TYPE)))
  have hmain := C4_membership_complete accW1 hr (by decide) 3 (by decide)
  exact ⟨hr, by decide, hmain.1, hmain.2.1, hmain.2.2⟩

theorem generatePowers_g2_one (s r : Fr) (d : ℕ) :
    ((mkSetup s r d).generatePowers).g2_s_powers.getD 1 0 = s := by
  have h12 : 1 < d + 2 := by omega
  simp [ExpressiveTrustedSetup.generatePowers, mkSetup, List.getD_eq_getElem?_getD,
    List.getElem?_map, List.getElem?_range, h12]

/-- Claim C5: for every `UpdateProof` with `is_valid = true` over a generated
setup: an `ADD` proof is accepted iff
`e(D_new, g2) = e(D_old, g2^s) · e(D_old, g2)^{-x}`, and a `DELETE` proof is
accepted iff its attached membership proof verifies against `D_old` and
`e(D_old, g2) = e(D_new, g2^s) · e(D_new, g2)^{-x}`. -/
theorem C5_update_verify (s r : Fr) (d : ℕ) (proof : UpdateProof)
    (hv : proof.is_valid = true) :
    (proof.op_type = UpdateOperation.ADD →
      (ExpressiveAccumulator.verifyUpdateProof proof ((mkSetup s r d).generatePowers) = true ↔
        pairing proof.new_digest.value 1 =
          pairing proof.old_digest.value s +
            pairing proof.old_digest.value 1 * (-(proof.element : Fr))))
    ∧ (proof.op_type = UpdateOperation.DELETE →
      (ExpressiveAccumulator.verifyUpdateProof proof ((mkSetup s r d).generatePowers) = true ↔
        (ExpressiveAccumulator.verifyMembershipProof proof.old_digest proof.element
            proof.membership_proof ((mkSetup s r d).generatePowers) = true
        ∧ pairing proof.old_digest.value 1 =
            pairing proof.new_digest.value s +
              pairing proof.new_digest.value 1 * (-(proof.element : Fr))))) := by
  have hg2s := generatePowers_g2_one s r d
  constructor <;> intro hop
  · simp only [ExpressiveAccumulator.verifyUpdateProof, hv, hop, hg2s]
    simp
  · simp only [ExpressiveAccumulator.verifyUpdateProof, hv, hop, hg2s]
    by_cases hm : ExpressiveAccumulator.verifyMembershipProof proof.old_digest
        proof.element proof.membership_proof ((mkSetup s r d).generatePowers) = true
    · simp [hm]
    · simp [hm]

/-- Witness for C5: the `ADD` proof returned by adding `10` to `{1,3,9}`. -/
theorem C5_update_verify_witness :
    (accW1.addElement 10).2.is_valid = true
    ∧ (accW1.addElement 10).2.op_type = UpdateOperation.ADD
    ∧ (ExpressiveAccumulator.verifyUpdateProof (accW1.addElement 10).2 tsW = true ↔
        pairing (accW1.addElement 10).2.new_digest.value 1 =
          pairing (accW1.addElement 10).2.old_digest.value 5 +
            pairing (accW1.addElement 10).2.old_digest.value 1 *
              (-(((accW1.addElement 10).2.element : Fr)))) :=
  ⟨rfl, rfl, (C5_update_verify 5 7 10 (accW1.addElement 10).2 rfl).1 rfl⟩

/-- Claim C6: every accumulator reachable through `addElement`/`deleteElement`
has digest `g^{P_S(s)}` in its chosen group, and a freshly constructed
accumulator has `S = ∅` and digest equal to the generator (`P_∅ = 1`). -/
theorem C6_digest_correct :
    (∀ acc : ExpressiveAccumulator, Reachable acc →
      (acc.group_type = GroupType.G1_TYPE →
        acc.digest_g1.value = charEval acc.elements acc.trusted_setup.secret_s)
      ∧ (acc.group_type = GroupType.G2_TYPE →
        acc.digest_g2.value = charEval acc.elements acc.trusted_setup.secret_s))
    ∧ ∀ (setup : ExpressiveTrustedSetup) (t : GroupType),
        (mkAccumulator setup t).elements = ∅
        ∧ (t = GroupType.G1_TYPE → (mkAccumulator setup t).digest_g1.value = 1)
        ∧ (t = GroupType.G2_TYPE → (mkAccumulator setup t).digest_g2.value = 1) := by
  constructor
  · intro acc h
    obtain ⟨-, hg1, hg2⟩ := reachable_invariant acc h
    exact ⟨fun ht => (hg1 ht).1, fun ht => (hg2 ht).1⟩
  · intro setup t
    cases t <;> simp [mkAccumulator]

/-- Witness for C6 at the accumulator holding `{1,3,9}` and a fresh one. -/
theorem C6_digest_correct_witness :
    Reachable accW1
    ∧ accW1.digest_g1.value = charEval accW1.elements accW1.trusted_setup.secret_s
    ∧ (mkAccumulator tsW GroupType.G1_TYPE).elements = ∅
    ∧ (mkAccumulator tsW GroupType.G1_TYPE).digest_g1.value = 1 := by
  have hr : Reachable accW1 :=
    Reachable.add _ 9 (Reachable.add _ 3 (Reachable.add _ 1
      (Reachable.mk tsW GroupType.G1_TYPE)))
  exact ⟨hr, (C6_digest_correct.1 accW1 hr).1 (by decide),
    (C6_digest_correct.2 tsW GroupType.G1_TYPE).1,
    (C6_digest_correct.2 tsW GroupType.G1_TYPE).2.1 rfl⟩

/-- Claim C7: deleting an absent element leaves the accumulator unchanged and
returns an `UpdateProof` with `is_valid = false` whose old and new digests are
both the current (`G1`) digest; and `verifyUpdateProof` rejects that proof. -/
theorem C7_delete_absent (acc : ExpressiveAccumulator) (x : ℤ)
    (hx : x ∉ acc.elements) :
    (acc.deleteElement x).1 = acc
    ∧ (acc.deleteElement x).2.is_valid = false
    ∧ (acc.deleteElement x).2.old_digest = acc.digest_g1
    ∧ (acc.deleteElement x).2.new_digest = acc.digest_g1
    ∧ ∀ ts : ExpressiveTrustedSetup,
        ExpressiveAccumulator.verifyUpdateProof (acc.deleteElement x).2 ts = false := by
  rw [deleteElement_of_not_mem acc x hx]
  refine ⟨rfl, rfl, rfl, rfl, fun ts => ?_⟩
  simp [ExpressiveAccumulator.verifyUpdateProof]

/-- Witness for C7: deleting `42` from `{1,3,9}`. -/
theorem C7_delete_absent_witness :
    ((42 : ℤ) ∉ accW1.elements)
    ∧ (accW1.deleteElement 42).1 = accW1
    ∧ (accW1.deleteElement 42).2.is_valid = false
    ∧ (accW1.deleteElement 42).2.old_digest = accW1.digest_g1
    ∧ (accW1.deleteElement 42).2.new_digest = accW1.digest_g1
    ∧ ExpressiveAccumulator.verifyUpdateProof (accW1.deleteElement 42).2 tsW = false := by
  have hmain := C7_delete_absent accW1 42 (by decide)
  exact ⟨by decide, hmain.1, hmain.2.1, hmain.2.2.1, hmain.2.2.2.1,
    hmain.2.2.2.2 tsW⟩

/-- Claim C8: adding an already-present element is observationally a no-op —
state unchanged, `old_digest = new_digest` — yet the returned trivial update
proof still has `is_valid = true`. -/
theorem C8_add_present (acc : ExpressiveAccumulator) (x : ℤ)
    (hx : x ∈ acc.elements) :
    (acc.addElement x).1 = acc
    ∧ (acc.addElement x).2.old_digest = (acc.addElement x).2.new_digest
    ∧ (acc.addElement x).2.is_valid = true := by
  have h1 : (acc.addElement x).1 = acc := by
    rw [addElement_fst, if_pos hx]
  refine ⟨h1, ?_, rfl⟩
  rw [addElement_snd]
  show acc.getDigest = (acc.addElement x).1.getDigest
  rw [h1]

/-- Witness for C8: re-adding `3` to `{1,3,9}`. -/
theorem C8_add_present_witness :
    ((3 : ℤ) ∈ accW1.elements)
    ∧ (accW1.addElement 3).1 = accW1
    ∧ (accW1.addElement 3).2.old_digest = (accW1.addElement 3).2.new_digest
    ∧ (accW1.addElement 3).2.is_valid = true := by
  have hmain := C8_add_present accW1 3 (by decide)
  exact ⟨by decide, hmain.1, hmain.2.1, hmain.2.2⟩

/-- Claim C9: after `generatePowers`, `getG2_s_pow i` returns `g2^{s^i}` for
every `i ≤ d + 1`, and an index beyond `d + 1` is fatal — the bounds-checked
access throws (embedded as `none`) instead of returning a group element; the
accessor is `const`, so the setup is unchanged. -/
theorem C9_setup_powers (s r : Fr) (d i : ℕ) :
    (i ≤ d + 1 → ((mkSetup s r d).generatePowers).getG2_s_pow i = some (s ^ i))
    ∧ (d + 1 < i → ((mkSetup s r d).generatePowers).getG2_s_pow i = none) := by
  unfold ExpressiveTrustedSetup.getG2_s_pow ExpressiveTrustedSetup.generatePowers mkSetup
  constructor
  · intro hi
    have hlt : i < d + 2 := by omega
    simp [List.get?_eq_getElem?, List.getElem?_map, List.getElem?_range, hlt]
  · intro hi
    have hge : d + 2 ≤ i := by omega
    simp [List.get?_eq_getElem?, List.getElem?_map, List.getElem?_range,
      Nat.not_lt.mpr hge]
    omega

/-- Witness for C9 at `d = 10`, indices `11 = d + 1` and `12`. -/
theorem C9_setup_powers_witness :
    tsW.getG2_s_pow 11 = some ((5 : Fr) ^ 11) ∧ tsW.getG2_s_pow 12 = none :=
  ⟨(C9_setup_powers 5 7 10 11).1 (by omega), (C9_setup_powers 5 7 10 12).2 (by omega)⟩

/-- Claim C10: the digest field of the group not chosen at construction is
never written: a `G2` accumulator's `digest_g1` and a `G1` accumulator's
`digest_g2` remain the identity (exponent `0`) in every reachable state. -/
theorem C10_other_digest_identity (acc : ExpressiveAccumulator) (h : Reachable acc) :
    (acc.group_type = GroupType.G2_TYPE → acc.digest_g1.value = 0)
    ∧ (acc.group_type = GroupType.G1_TYPE → acc.digest_g2.value = 0) := by
  obtain ⟨-, hg1, hg2⟩ := reachable_invariant acc h
  exact ⟨fun ht => (hg2 ht).2, fun ht => (hg1 ht).2⟩

/-- Witness for C10: a `G2` accumulator holding `{4}` and the `G1` accumulator
holding `{1,3,9}`. -/
theorem C10_other_digest_identity_witness :
    Reachable accW3 ∧ accW3.group_type = GroupType.G2_TYPE
    ∧ accW3.digest_g1.value = 0
    ∧ Reachable accW1 ∧ accW1.group_type = GroupType.G1_TYPE
    ∧ accW1.digest_g2.value = 0 := by
  have hr3 : Reachable accW3 :=
    Reachable.add _ 4 (Reachable.mk tsW GroupType.G2_TYPE)
  have hr1 : Reachable accW1 :=
    Reachable.add _ 9 (Reachable.add _ 3 (Reachable.add _ 1
      (Reachable.mk tsW GroupType.G1_TYPE)))
  exact ⟨hr3, by decide, (C10_other_digest_identity accW3 hr3).1 (by decide),
    hr1, by decide, (C10_other_digest_identity accW1 hr1).2 (by decide)⟩

end ESAAcc
